import Mathlib

/-
Formal model of the Traycer two-agent orchestration system.

The embedding covers, from the repository sources:
  * src/gemini-agents.ts : AgentMemory (bounded memory with periodic
    summaries), executeTool (registry dispatch), SimpleGeminiAgent.run
    (tool-call phase and error handling), shouldContinueIterating
    (stop-biased continuation heuristic), and runSimpleGeminiSystem
    (the interactive driver's per-input control flow, max 6 iterations).
  * src/index.ts : shouldHaveUsedTools (tool-call enforcement
    classifier), shouldAskUser, the continue-biased
    shouldContinueIterating variant, and the runIterativeAgentSystem
    inner loop (max 10 iterations).
  * src/tools/vscode-tools.ts : the registry's tool names.

Strings are modelled as lists of characters; the JavaScript operations
substring / includes / toLowerCase are modelled accordingly (the
heuristics' pattern texts are ASCII, where Char.toLower agrees with the
JavaScript lowercasing).  Model calls and tool side effects are external
inputs of the embedding: an oracle supplies each agent turn's response
text, requested tool calls and recorded memory entries, exactly as the
driver code consumes them.
-/

namespace Traycer

/-- Strings as lists of characters (JS strings restricted to the code points
the repository's heuristics manipulate). -/
abbrev Str := List Char

/-- Does `needle` stand at the head of `hay`? (helper for `hasSub`). -/
def beginsWith : Str → Str → Bool
  | [], _ => true
  | _ :: _, [] => false
  | a :: as, b :: bs => a == b && beginsWith as bs

/-- JS `hay.includes(needle)`: substring test. -/
def hasSub : Str → Str → Bool
  | [], needle => needle.isEmpty
  | c :: t, needle => beginsWith needle (c :: t) || hasSub t needle

/-- JS `s.toLowerCase()` on the ASCII texts used by the heuristics. -/
def lowerStr (s : Str) : Str := s.map Char.toLower

/-- JS `array.slice(-n)`: the last `n` elements (all of them when the list
is shorter). -/
def takeLast (n : Nat) (l : List α) : List α := l.drop (l.length - n)

/-- The cap step `if (xs.length > n) xs = xs.slice(-n)` used by
`AgentMemory` for both entries and summaries. -/
def capList (n : Nat) (l : List α) : List α :=
  if l.length > n then takeLast n l else l

/-- JS `array.join(sep)`. -/
def joinSep (sep : Str) : List Str → Str
  | [] => []
  | [x] => x
  | x :: y :: ys => x ++ sep ++ joinSep sep (y :: ys)

/-- Decimal rendering of a number, as JS template interpolation does. -/
def natChars (n : Nat) : Str := (toString n).toList

theorem takeLast_length (n : Nat) (l : List α) :
    (takeLast n l).length = min n l.length := by
  simp [takeLast]; omega

theorem takeLast_eq_self (n : Nat) (l : List α) (h : l.length ≤ n) :
    takeLast n l = l := by
  simp [takeLast, Nat.sub_eq_zero_of_le h]

theorem takeLast_sublist (n : Nat) (l : List α) : (takeLast n l).Sublist l :=
  List.drop_sublist _ _

theorem mem_of_mem_takeLast {n : Nat} {l : List α} {a : α}
    (h : a ∈ takeLast n l) : a ∈ l :=
  (takeLast_sublist n l).mem h

/-- Pushing one element onto a list already capped to its last `n`
elements and re-capping yields the cap of pushing onto the full list:
the FIFO-eviction step commutes with remembering only the suffix. -/
theorem capList_takeLast_append (n : Nat) (hn : 1 ≤ n) (L : List α) (e : α) :
    capList n (takeLast n L ++ [e]) = takeLast n (L ++ [e]) := by
  by_cases h : L.length < n
  · have h1 : takeLast n L = L := takeLast_eq_self n L (Nat.le_of_lt h)
    have h2 : (L ++ [e]).length ≤ n := by simp; omega
    rw [h1]
    simp only [capList, takeLast_eq_self n _ h2]
    have : ¬ (L ++ [e]).length > n := by omega
    simp [this]
  · push_neg at h
    have hlen : (takeLast n L).length = n := by rw [takeLast_length]; omega
    have hgt : (takeLast n L ++ [e]).length > n := by simp [hlen]
    have step1 : capList n (takeLast n L ++ [e]) = takeLast n (takeLast n L ++ [e]) := by
      unfold capList
      rw [if_pos hgt]
    have step2 : takeLast n (takeLast n L ++ [e]) = (takeLast n L).drop 1 ++ [e] := by
      have hsub : (takeLast n L ++ [e]).length - n = 1 := by simp [hlen]
      rw [takeLast, hsub, List.drop_append_of_le_length (by omega)]
    have step3 : (takeLast n L).drop 1 = L.drop (L.length + 1 - n) := by
      rw [takeLast, List.drop_drop]
      congr 1
      omega
    have step4 : takeLast n (L ++ [e]) = L.drop (L.length + 1 - n) ++ [e] := by
      have hsub : (L ++ [e]).length - n = L.length + 1 - n := by simp
      rw [takeLast, hsub, List.drop_append_of_le_length (by omega)]
    rw [step1, step2, step3, step4]

/-- `MemoryEntry` of src/gemini-agents.ts (lines 53-59).  The `timestamp`
field (`new Date()`) is wall-clock input with no bearing on any control
decision and is omitted from the embedding. -/
structure MemoryEntry where
  iteration : Nat
  agent : Str
  action : Str
  result : Str
deriving DecidableEq, Repr

/-- A stored summary.  The source keeps each summary as the single string
`"[Iter a-b]: ..."`; the embedding keeps that rendered string in `text`
and additionally records the `a` and `b` embedded in its label as
`startIter` / `endIter`, so that range statements can be made. -/
structure MemorySummary where
  startIter : Nat
  endIter : Nat
  text : Str
deriving DecidableEq, Repr

/-- State of the `AgentMemory` class (src/gemini-agents.ts lines 61-138). -/
structure AgentMemory where
  entries : List MemoryEntry
  summaries : List MemorySummary
deriving DecidableEq, Repr

namespace AgentMemory

/-- `private maxEntries = 10` — the entry cap. -/
def maxEntries : Nat := 10

/-- A fresh memory, and the result of `clear()`. -/
def empty : AgentMemory := ⟨[], []⟩

/-- `createSummary(currentIteration)` (lines 86-104): select the entries
with `iteration ∈ [currentIteration-2, currentIteration]`; if none, do
nothing; else append one summary labelled with that range, built by
joining `agent: action → result.substring(0,80)` with `" | "`, and keep
only the last 3 summaries. -/
def createSummary (m : AgentMemory) (currentIteration : Nat) : AgentMemory :=
  let lastThreeIterations := m.entries.filter (fun e =>
    decide (currentIteration - 2 ≤ e.iteration) && decide (e.iteration ≤ currentIteration))
  if lastThreeIterations.isEmpty then m
  else
    let summary := joinSep " | ".toList (lastThreeIterations.map (fun e =>
      e.agent ++ ": ".toList ++ e.action ++ " → ".toList ++ e.result.take 80))
    let label := "[Iter ".toList ++ natChars (currentIteration - 2) ++ "-".toList ++
      natChars currentIteration ++ "]: ".toList ++ summary
    { m with summaries := capList 3 (m.summaries ++ [⟨currentIteration - 2, currentIteration, label⟩]) }

/-- `addEntry(iteration, agent, action, result)` (lines 66-84): push the
entry (result truncated to 200 characters), trigger `createSummary` when
`iteration > 0 && iteration % 3 === 0`, then keep only the last
`maxEntries` entries. -/
def addEntry (m : AgentMemory) (iteration : Nat) (agent action result : Str) : AgentMemory :=
  let m1 : AgentMemory :=
    { m with entries := m.entries ++ [⟨iteration, agent, action, result.take 200⟩] }
  let m2 := if 0 < iteration ∧ iteration % 3 = 0 then m1.createSummary iteration else m1
  { m2 with entries := capList maxEntries m2.entries }

/-- The entries rendered by `getRecentContext` (lines 107-109): entries
with `iteration < currentIteration`, last 4 of them. -/
def recentContextEntries (m : AgentMemory) (currentIteration : Nat) : List MemoryEntry :=
  takeLast 4 (m.entries.filter (fun e => decide (e.iteration < currentIteration)))

/-- The summaries rendered by `getRecentContext` (line 117): the last 2. -/
def contextSummaries (m : AgentMemory) : List MemorySummary :=
  takeLast 2 m.summaries

/-- `getRecentContext(currentIteration)` (lines 106-128). -/
def getRecentContext (m : AgentMemory) (currentIteration : Nat) : Str :=
  let recentEntries := recentContextEntries m currentIteration
  if m.entries.isEmpty && m.summaries.isEmpty then []
  else
    let context1 : Str :=
      if 0 < m.summaries.length then
        "\nSUMMARIES:\n".toList ++
          joinSep "\n".toList ((contextSummaries m).map MemorySummary.text) ++ "\n".toList
      else []
    if 0 < recentEntries.length then
      context1 ++ "\nRECENT:\n".toList ++
        joinSep "\n".toList (recentEntries.map (fun e =>
          e.agent ++ ": ".toList ++ e.action ++ " → ".toList ++
            e.result.take 100 ++ "...".toList))
    else context1

/-- `getEntryCount()` (lines 135-137). -/
def getEntryCount (m : AgentMemory) : Nat := m.entries.length

end AgentMemory

/-- A registry tool as the dispatcher sees it: a name and an invocation
function.  `func` models `await tool.func(args)`: `Except.error msg`
models the function throwing an error whose `.message` is `msg`
(caught by `executeTool`'s try/catch), `Except.ok r` a returned string.
The argument object is carried as its serialized text; the file-system
and subprocess effects of the concrete tools are outside the embedding,
dispatch depends only on names and outcomes. -/
structure GTool where
  name : Str
  func : Str → Except Str Str

/-- `executeTool(toolName, args)` of src/gemini-agents.ts (lines 144-164):
look the name up in the `vscodeTools` array it closes over; unknown name
yields a `"Tool ... not found!"` string, a throwing tool yields an
`"Error executing ...: ..."` string, otherwise the tool's result string. -/
def executeTool (vscodeTools : List GTool) (toolName : Str) (args : Str) : Str :=
  match vscodeTools.find? (fun t => t.name == toolName) with
  | none => "Tool ".toList ++ toolName ++ " not found!".toList
  | some tool =>
    match tool.func args with
    | .ok result => result
    | .error msg => "Error executing ".toList ++ toolName ++ ": ".toList ++ msg

/-- The names of the seven tools registered in the `vscodeTools` array of
src/tools/vscode-tools.ts (lines 378-386), in order. -/
def vscodeToolNames : List Str :=
  ["create_file_or_folder".toList, "list_files".toList, "read_file".toList,
   "edit_file".toList, "move_file_or_folder".toList, "search_in_files".toList,
   "execute_in_terminal".toList]

/-- The tool subset granted to the analyst agent (src/gemini-agents.ts
lines 258-266). -/
def analystToolNames : List Str :=
  ["list_files".toList, "read_file".toList, "search_in_files".toList]

/-- A stand-in invocation behaviour used to instantiate the registry at
concrete inputs: the actual tools' file-system effects are outside the
embedding and play no role in dispatch. -/
def stubFunc : Str → Except Str Str := fun _ => .ok "ok".toList

/-- The full registry with the source's names and stand-in behaviours. -/
def vscodeToolsModel : List GTool := vscodeToolNames.map (fun n => ⟨n, stubFunc⟩)

/-- `AgentResult`: the value returned by `SimpleGeminiAgent.run`. -/
structure AgentResult where
  response : Str
  toolsUsed : List Str
deriving DecidableEq, Repr

/-- The catch block of `SimpleGeminiAgent.run` (src/gemini-agents.ts lines
243-253) as a function of the thrown error's message: a message
containing `'429'` or `'quota'` yields the quota sentinel result (after a
fixed 10 s pause, a real-time effect outside the embedding); any other
message yields an `"Error: ..."` result.  Both carry an empty
`toolsUsed` and are returned, not re-thrown. -/
def runCatch (errorMessage : Str) : AgentResult :=
  if hasSub errorMessage "429".toList || hasSub errorMessage "quota".toList then
    ⟨"Quota limit reached, waiting before retry.".toList, []⟩
  else
    ⟨"Error: ".toList ++ errorMessage, []⟩

/-- The function-call loop of `SimpleGeminiAgent.run` (src/gemini-agents.ts
lines 199-226) given the calls the model requested: for each call, in
order, push its name onto `toolsUsed`, dispatch it through `executeTool`
against the module-level `vscodeTools` registry, and record a memory
entry `name(args)` → result at the current iteration.  Returns the
updated memory and the accumulated `toolsUsed`. -/
def runToolPhase (vscodeTools : List GTool) (agentName : Str) (iteration : Nat)
    (m : AgentMemory) (calls : List (Str × Str)) : AgentMemory × List Str :=
  calls.foldl (fun acc call =>
    let functionResult := executeTool vscodeTools call.1 call.2
    (acc.1.addEntry iteration agentName
        (call.1 ++ "(".toList ++ call.2 ++ ")".toList) functionResult,
     acc.2 ++ [call.1]))
    (m, [])

/-- The stop patterns of `shouldContinueIterating` (src/gemini-agents.ts
lines 455-462). -/
def stopPatterns : List Str :=
  ["task completed".toList, "all files created".toList,
   "calculator complete".toList, "finished".toList, "done".toList,
   "quota limit".toList]

/-- The continue patterns of `shouldContinueIterating` (src/gemini-agents.ts
lines 469-479). -/
def continuePatterns : List Str :=
  ["next step".toList, "continue".toList, "create".toList, "add".toList,
   "need to".toList, "should".toList, "html".toList, "javascript".toList,
   "calculator".toList]

/-- The lowercased `analystMsg + ' ' + executorMsg` both pattern scans run
over (src/gemini-agents.ts line 452). -/
def combinedLower (analystMsg executorMsg : Str) : Str :=
  lowerStr (analystMsg ++ ' ' :: executorMsg)

/-- `shouldContinueIterating(analystMsg, executorMsg)` of
src/gemini-agents.ts (lines 451-482): the stop-biased variant. -/
def shouldContinueIterating (analystMsg executorMsg : Str) : Bool :=
  let combinedText := combinedLower analystMsg executorMsg
  if stopPatterns.any (fun p => hasSub combinedText p) then false
  else continuePatterns.any (fun p => hasSub combinedText p)

/-- JS whitespace test backing `trim()` on the texts in play. -/
def jsIsWhitespace (c : Char) : Bool :=
  c == ' ' || c == '\t' || c == '\n' || c == '\r'

/-- `!finalResponse || finalResponse.trim().length === 0`. -/
def isBlank (s : Str) : Bool := s.all jsIsWhitespace

/-- What the black-box model call inside `SimpleGeminiAgent.run` produced,
an external input of the embedding: a list of function calls (with the
concatenation of the follow-up texts the model then returns), a plain
text, or a thrown failure carrying its error message. -/
inductive ModelOutput where
  | functionCalls (calls : List (Str × Str)) (followUpText : Str)
  | text (t : Str)
  | failure (errorMessage : Str)

/-- `SimpleGeminiAgent.run(prompt, iteration)` (src/gemini-agents.ts lines
184-254) as a function of the model's output: dispatch each requested
call against the module-level registry recording memory entries
(lines 199-226), or record a `thinking` entry substituting
`"Task acknowledged."` for a blank text (lines 227-237), or handle a
thrown failure via the catch block (lines 243-253).  Returns the updated
global memory and the `AgentResult`. -/
def runAgentTurn (vscodeTools : List GTool) (agentName : Str) (iteration : Nat)
    (m : AgentMemory) : ModelOutput → AgentMemory × AgentResult
  | .functionCalls calls followUpText =>
    let phase := runToolPhase vscodeTools agentName iteration m calls
    (phase.1, ⟨followUpText, phase.2⟩)
  | .text t =>
    let finalResponse := if isBlank t then "Task acknowledged.".toList else t
    (m.addEntry iteration agentName "thinking".toList finalResponse,
     ⟨finalResponse, []⟩)
  | .failure errorMessage => (m, runCatch errorMessage)

/-- The response text of a turn, which depends only on the model output,
not on the memory state. -/
def outputResponse : ModelOutput → Str
  | .functionCalls _ followUpText => followUpText
  | .text t => if isBlank t then "Task acknowledged.".toList else t
  | .failure errorMessage => (runCatch errorMessage).response

/-- Which of the two cooperating agents produced a turn. -/
inductive AgentTag where
  | analyst
  | executor
deriving DecidableEq, Repr

/-- One element of `IterationContext.history`(src/gemini-agents.ts lines
277-282); the `timestamp` is omitted as for `MemoryEntry`. -/
structure HistoryItem where
  agent : AgentTag
  message : Str
  toolsUsed : List Str

/-- `IterationContext` of src/gemini-agents.ts (lines 274-283). -/
structure IterationContext where
  count : Nat
  originalRequest : Str
  history : List HistoryItem

/-- The whole mutable state the Gemini CLI driver threads across user
inputs: its `IterationContext` plus the module-level `agentMemory`. -/
structure GeminiState where
  context : IterationContext
  memory : AgentMemory

/-- `maxIterations` of `runSimpleGeminiSystem` (line 352). -/
def geminiMaxIterations : Nat := 6

/-- The body of one pass of the inner loop of `runSimpleGeminiSystem`
(src/gemini-agents.ts lines 354-391): increment the counter, run the
analyst turn then the executor turn (the latter over the memory the
former left behind, at the incremented iteration number), and append
both results to the history. -/
def stepState (vscodeTools : List GTool) (orc : Nat → AgentTag → ModelOutput)
    (s : GeminiState) : GeminiState :=
  let ra := runAgentTurn vscodeTools "Analyst".toList (s.context.count + 1)
    s.memory (orc (s.context.count + 1) .analyst)
  let re := runAgentTurn vscodeTools "Executor".toList (s.context.count + 1)
    ra.1 (orc (s.context.count + 1) .executor)
  ⟨⟨s.context.count + 1, s.context.originalRequest,
    s.context.history ++
      [⟨.analyst, ra.2.response, ra.2.toolsUsed⟩,
       ⟨.executor, re.2.response, re.2.toolsUsed⟩]⟩,
    re.1⟩

/-- The continuation check after one pass (src/gemini-agents.ts line 393):
`shouldContinueIterating` applied to the analyst and executor responses
of that pass. -/
def stepContinue (vscodeTools : List GTool) (orc : Nat → AgentTag → ModelOutput)
    (s : GeminiState) : Bool :=
  let ra := runAgentTurn vscodeTools "Analyst".toList (s.context.count + 1)
    s.memory (orc (s.context.count + 1) .analyst)
  let re := runAgentTurn vscodeTools "Executor".toList (s.context.count + 1)
    ra.1 (orc (s.context.count + 1) .executor)
  shouldContinueIterating ra.2.response re.2.response

/-- The inner `while (shouldContinue && context.count < maxIterations)`
loop of `runSimpleGeminiSystem` (src/gemini-agents.ts lines 351-401),
driven by an oracle `orc` giving the model output of each agent at each
iteration number: perform passes while the count is below the cap and
the continuation heuristic accepts each pass's pair of responses. -/
def geminiIterLoop (vscodeTools : List GTool) (orc : Nat → AgentTag → ModelOutput)
    (s : GeminiState) : GeminiState :=
  if _h : s.context.count < geminiMaxIterations then
    if stepContinue vscodeTools orc s then
      geminiIterLoop vscodeTools orc (stepState vscodeTools orc s)
    else stepState vscodeTools orc s
  else s
termination_by geminiMaxIterations - s.context.count
decreasing_by simp [stepState, geminiMaxIterations] at *; omega

/-- Processing of one task-request user input by `runSimpleGeminiSystem`
(src/gemini-agents.ts lines 324-405): only when `context.count === 0`,
set `originalRequest`, clear the memory, run the initial observation
pass (an analyst turn at iteration 0, `obs` being the model's output for
it) and record its response as an `initial_observation` entry; then run
the inner iteration loop. -/
def geminiProcessInput (vscodeTools : List GTool) (orc : Nat → AgentTag → ModelOutput)
    (obs : ModelOutput) (s : GeminiState) (userInput : Str) : GeminiState :=
  let s1 : GeminiState :=
    if s.context.count = 0 then
      let o := runAgentTurn vscodeTools "Analyst".toList 0 AgentMemory.empty obs
      ⟨⟨0, userInput, s.context.history⟩,
        o.1.addEntry 0 "Analyst".toList "initial_observation".toList o.2.response⟩
    else s
  geminiIterLoop vscodeTools orc s1

/-- The post-loop `if (context.count >= maxIterations)` check that prints
the reached-maximum-iterations message (src/gemini-agents.ts lines
403-405). -/
def geminiReachedMax (s : GeminiState) : Bool :=
  decide (geminiMaxIterations ≤ s.context.count)

namespace CLI

/-- The executor action keywords of `shouldHaveUsedTools`
(src/index.ts lines 105-109). -/
def actionKeywords : List Str :=
  ["create".toList, "write".toList, "add".toList, "modify".toList,
   "edit".toList, "update".toList, "run".toList, "execute".toList,
   "install".toList, "build".toList, "start".toList, "check".toList,
   "read".toList, "view".toList, "list".toList, "search".toList]

/-- The analyst investigation keywords of `shouldHaveUsedTools`
(src/index.ts lines 119-121). -/
def investigationKeywords : List Str :=
  ["check".toList, "examine".toList, "look at".toList, "read".toList,
   "view".toList, "list".toList, "search".toList, "find".toList]

/-- `shouldHaveUsedTools(agentResponse, agentType)` of src/index.ts
(lines 100-128), the tool-call-enforcement classifier. -/
def shouldHaveUsedTools (agentResponse : Str) (agentType : AgentTag) : Bool :=
  let response := lowerStr agentResponse
  match agentType with
  | .executor =>
    let hasActionKeywords := actionKeywords.any (fun k => hasSub response k)
    let hasToolMentions := hasSub response "tool".toList ||
      hasSub response "file".toList || hasSub response "command".toList
    hasActionKeywords && hasToolMentions &&
      !hasSub response "tool call".toList && !hasSub response "executed".toList
  | .analyst =>
    investigationKeywords.any (fun k => hasSub response k) &&
      !hasSub response "tool call".toList && !hasSub response "executed".toList

/-- The ask patterns of `shouldAskUser` (src/index.ts lines 420-427). -/
def askPatterns : List Str :=
  ["QUESTIONS FOR USER:".toList, "need clarification".toList,
   "please specify".toList, "which approach".toList,
   "more details".toList, "unclear about".toList]

/-- `shouldAskUser(analystMessage)` of src/index.ts (lines 419-432). -/
def shouldAskUser (analystMessage : Str) : Bool :=
  askPatterns.any (fun p => hasSub (lowerStr analystMessage) (lowerStr p))

/-- The definite stop patterns of the continue-biased
`shouldContinueIterating` (src/index.ts lines 438-446). -/
def definiteStopPatterns : List Str :=
  ["task is completely finished".toList, "everything is done".toList,
   "no more work needed".toList, "waiting for user input".toList,
   "need clarification from user".toList, "ask the user".toList,
   "user needs to decide".toList]

/-- `shouldContinueIterating(analystMsg, executorMsg)` of src/index.ts
(lines 434-456): the continue-biased variant. -/
def shouldContinueIterating (analystMsg executorMsg : Str) : Bool :=
  let combinedText := combinedLower analystMsg executorMsg
  if definiteStopPatterns.any (fun p => hasSub combinedText p) then false
  else true

/-- `maxIterations` of `runIterativeAgentSystem` (src/index.ts line 222). -/
def maxIterations : Nat := 10

/-- The inner `while (shouldContinue && context.iterationCount <
maxIterations)` loop of `runIterativeAgentSystem` (src/index.ts lines
221-349), projected to its iteration counter: the oracle gives the
analyst and executor response contents of each iteration (after any
forced-tool retry, whose substituted content is again model output).
After the analyst phase, `shouldAskUser` may stop the cycle before the
executor phase; otherwise the continue-biased heuristic decides. -/
def innerLoop (orc : Nat → Str × Str) (count : Nat) : Nat :=
  if h : count < maxIterations then
    if shouldAskUser (orc (count + 1)).1 then count + 1
    else if shouldContinueIterating (orc (count + 1)).1 (orc (count + 1)).2 then
      innerLoop orc (count + 1)
    else count + 1
  else count
termination_by maxIterations - count
decreasing_by simp [maxIterations] at *; omega

/-- The post-loop `if (context.iterationCount >= maxIterations)` check
that prints the reached-maximum-iterations message (src/index.ts lines
351-353). -/
def reachedMax (count : Nat) : Bool := decide (maxIterations ≤ count)

end CLI

/-- A sequence of `addEntry` calls, each `(iteration, agent, action,
result)`, applied in order. -/
def applyEntryCalls (m : AgentMemory) (cs : List (Nat × Str × Str × Str)) : AgentMemory :=
  cs.foldl (fun acc c => acc.addEntry c.1 c.2.1 c.2.2.1 c.2.2.2) m

/-- The entry an `addEntry` call pushes (result truncated to 200
characters). -/
def entryOfCall (c : Nat × Str × Str × Str) : MemoryEntry :=
  ⟨c.1, c.2.1, c.2.2.1, c.2.2.2.take 200⟩

/-- The spec-side reading of the executor branch of `shouldHaveUsedTools`,
stated in the spec's words for comparison with the source function: the
lowercased text contains at least one action verb, AND references
"tool"/"file"/"command", AND contains neither "tool call" nor
"executed". -/
def executorForcingSpec (agentResponse : Str) : Prop :=
  (∃ k ∈ CLI.actionKeywords, hasSub (lowerStr agentResponse) k = true) ∧
  (hasSub (lowerStr agentResponse) "tool".toList = true ∨
    hasSub (lowerStr agentResponse) "file".toList = true ∨
    hasSub (lowerStr agentResponse) "command".toList = true) ∧
  hasSub (lowerStr agentResponse) "tool call".toList = false ∧
  hasSub (lowerStr agentResponse) "executed".toList = false

/-- A one-tool registry whose tool throws, to exercise the dispatcher's
catch branch at a concrete input. -/
def failingToolModel : List GTool :=
  [⟨"boom_tool".toList, fun _ => .error "no such path".toList⟩]

theorem createSummary_entries (m : AgentMemory) (cur : Nat) :
    (m.createSummary cur).entries = m.entries := by
  unfold AgentMemory.createSummary
  dsimp only
  split <;> rfl

theorem addEntry_entries (m : AgentMemory) (it : Nat) (a act r : Str) :
    (m.addEntry it a act r).entries =
      capList AgentMemory.maxEntries (m.entries ++ [⟨it, a, act, r.take 200⟩]) := by
  unfold AgentMemory.addEntry
  dsimp only
  split
  · rw [createSummary_entries]
  · rfl

theorem addEntry_summaries_no_trigger (m : AgentMemory) (it : Nat) (a act r : Str)
    (h : ¬(0 < it ∧ it % 3 = 0)) :
    (m.addEntry it a act r).summaries = m.summaries := by
  unfold AgentMemory.addEntry
  dsimp only
  rw [if_neg h]

theorem createSummary_summaries (m : AgentMemory) (cur : Nat)
    (hne : (m.entries.filter (fun e =>
      decide (cur - 2 ≤ e.iteration) && decide (e.iteration ≤ cur))).isEmpty = false) :
    ∃ txt, (m.createSummary cur).summaries =
      capList 3 (m.summaries ++ [⟨cur - 2, cur, txt⟩]) := by
  unfold AgentMemory.createSummary
  dsimp only
  rw [hne]
  simp only [Bool.false_eq_true, if_false]
  exact ⟨_, rfl⟩

theorem addEntry_summaries_trigger (m : AgentMemory) (it : Nat) (a act r : Str)
    (h : 0 < it ∧ it % 3 = 0) :
    ∃ txt, (m.addEntry it a act r).summaries =
      capList 3 (m.summaries ++ [⟨it - 2, it, txt⟩]) := by
  unfold AgentMemory.addEntry
  dsimp only
  rw [if_pos h]
  have hp : (fun e : MemoryEntry =>
      decide (it - 2 ≤ e.iteration) && decide (e.iteration ≤ it))
      (⟨it, a, act, r.take 200⟩ : MemoryEntry) = true := by
    simp only [Bool.and_eq_true, decide_eq_true_eq]
    omega
  have hne : (((m.entries ++ [(⟨it, a, act, r.take 200⟩ : MemoryEntry)]).filter
      (fun e => decide (it - 2 ≤ e.iteration) && decide (e.iteration ≤ it))).isEmpty = false) := by
    rw [List.filter_append]
    simp [hp]
  obtain ⟨txt, htxt⟩ := createSummary_summaries
    (⟨m.entries ++ [⟨it, a, act, r.take 200⟩], m.summaries⟩ : AgentMemory) it hne
  exact ⟨txt, htxt⟩

theorem applyEntryCalls_entries (cs : List (Nat × Str × Str × Str)) :
    ∀ (m : AgentMemory) (L : List MemoryEntry),
      m.entries = takeLast AgentMemory.maxEntries L →
      (applyEntryCalls m cs).entries =
        takeLast AgentMemory.maxEntries (L ++ cs.map entryOfCall) := by
  induction cs with
  | nil => intro m L h; simpa [applyEntryCalls] using h
  | cons c rest ih =>
    intro m L h
    have hstep : (m.addEntry c.1 c.2.1 c.2.2.1 c.2.2.2).entries =
        takeLast AgentMemory.maxEntries (L ++ [entryOfCall c]) := by
      rw [addEntry_entries, h]
      exact capList_takeLast_append AgentMemory.maxEntries (by decide) L (entryOfCall c)
    have hrest := ih (m.addEntry c.1 c.2.1 c.2.2.1 c.2.2.2) (L ++ [entryOfCall c]) hstep
    calc (applyEntryCalls m (c :: rest)).entries
        = (applyEntryCalls (m.addEntry c.1 c.2.1 c.2.2.1 c.2.2.2) rest).entries := rfl
      _ = takeLast AgentMemory.maxEntries ((L ++ [entryOfCall c]) ++ rest.map entryOfCall) := hrest
      _ = takeLast AgentMemory.maxEntries (L ++ (c :: rest).map entryOfCall) := by
            simp [List.append_assoc]

/-- C3: for every sequence of `addEntry` calls starting from a fresh
memory, the entry count never exceeds the cap `maxEntries = 10`, and the
retained entries are exactly the last 10 pushed ones (each with its
result truncated to 200 characters): eviction is strictly FIFO, oldest
first. -/
theorem memory_entries_bounded_fifo (cs : List (Nat × Str × Str × Str)) :
    (applyEntryCalls AgentMemory.empty cs).entries.length ≤ AgentMemory.maxEntries ∧
    (applyEntryCalls AgentMemory.empty cs).entries =
      takeLast AgentMemory.maxEntries (cs.map entryOfCall) := by
  have h := applyEntryCalls_entries cs AgentMemory.empty [] rfl
  simp only [List.nil_append] at h
  refine ⟨?_, h⟩
  rw [h, takeLast_length]
  omega

/-- C2 counterexample: four `addEntry` calls at iterations 1, 2, 3, 3 —
the shape every real run produces, since the analyst and the executor
each record at least one entry at the same iteration — create TWO
summaries, both for the single completed block [1,3].  This refutes both
"a summary is created exactly once per completed block of 3 iterations"
and "the iteration ranges of the retained summaries are pairwise
non-overlapping": the trigger `iteration > 0 && iteration % 3 === 0`
fires on every `addEntry` call at a trigger iteration, not once per
block. -/
theorem summary_once_per_block_counterexample :
    (((((AgentMemory.empty).addEntry 1 "Analyst".toList "a".toList "r".toList).addEntry 2
        "Analyst".toList "a".toList "r".toList).addEntry 3 "Analyst".toList "a".toList
        "r".toList).addEntry 3 "Executor".toList "b".toList "s".toList).summaries.map
      (fun s => (s.startIter, s.endIter)) = [(1, 3), (1, 3)] := by
  rfl

/-- C2 amended: a summary is created by exactly those `addEntry` calls
whose iteration is a positive multiple of 3 — never at iteration 0 and
never at a non-multiple — and each such call appends exactly one summary
covering the range [iteration-2, iteration] (the summary list then being
capped to its last 3).  Hence summaries triggered at distinct iterations
have pairwise non-overlapping ranges, but several `addEntry` calls at
one trigger iteration each append a summary for that same block. -/
theorem summary_per_addEntry_call (m : AgentMemory) (it : Nat) (a act r : Str) :
    (¬(0 < it ∧ it % 3 = 0) → (m.addEntry it a act r).summaries = m.summaries) ∧
    ((0 < it ∧ it % 3 = 0) → ∃ txt, (m.addEntry it a act r).summaries =
        capList 3 (m.summaries ++ [⟨it - 2, it, txt⟩])) ∧
    (∀ i j x : Nat, 0 < i → i % 3 = 0 → 0 < j → j % 3 = 0 → i ≠ j →
      ¬(i - 2 ≤ x ∧ x ≤ i ∧ j - 2 ≤ x ∧ x ≤ j)) := by
  refine ⟨addEntry_summaries_no_trigger m it a act r,
    addEntry_summaries_trigger m it a act r, ?_⟩
  intro i j x hi hi3 hj hj3 hij
  omega

/-- C2 amended, witnessed at concrete inputs: an `addEntry` at iteration
1 leaves the summaries unchanged, an `addEntry` at iteration 3 appends a
summary of range [1,3], and the block ranges of trigger iterations 3 and
6 do not share the point 2. -/
theorem summary_per_addEntry_call_witness :
    (AgentMemory.empty.addEntry 1 "A".toList "a".toList "r".toList).summaries =
      AgentMemory.empty.summaries ∧
    (∃ txt, (AgentMemory.empty.addEntry 3 "A".toList "a".toList "r".toList).summaries =
      capList 3 (AgentMemory.empty.summaries ++ [⟨3 - 2, 3, txt⟩])) ∧
    ¬(3 - 2 ≤ 2 ∧ 2 ≤ 3 ∧ 6 - 2 ≤ 2 ∧ 2 ≤ 6) := by
  refine ⟨(summary_per_addEntry_call AgentMemory.empty 1 "A".toList "a".toList
      "r".toList).1 (by decide),
    (summary_per_addEntry_call AgentMemory.empty 3 "A".toList "a".toList
      "r".toList).2.1 (by decide),
    (summary_per_addEntry_call AgentMemory.empty 0 [] [] []).2.2 3 6 2
      (by decide) (by decide) (by decide) (by decide) (by decide)⟩

/-- C7: `getRecentContext k` renders only entries whose iteration is
strictly below `k` (all of them drawn from the stored entries), at most
the last 4 of them, preceded by at most the last 2 summaries, and
returns the empty string when no entries and no summaries exist. -/
theorem getRecentContext_spec (m : AgentMemory) (k : Nat) :
    (∀ e ∈ AgentMemory.recentContextEntries m k, e.iteration < k) ∧
    (∀ e ∈ AgentMemory.recentContextEntries m k, e ∈ m.entries) ∧
    (AgentMemory.recentContextEntries m k).length ≤ 4 ∧
    (AgentMemory.contextSummaries m).length ≤ 2 ∧
    (m.entries = [] → m.summaries = [] → m.getRecentContext k = []) := by
  refine ⟨?_, ?_, ?_, ?_, ?_⟩
  · intro e he
    have hf := mem_of_mem_takeLast he
    have := (List.mem_filter.mp hf).2
    simpa using this
  · intro e he
    exact (List.mem_filter.mp (mem_of_mem_takeLast he)).1
  · rw [AgentMemory.recentContextEntries, takeLast_length]; omega
  · rw [AgentMemory.contextSummaries, takeLast_length]; omega
  · intro h1 h2
    simp [AgentMemory.getRecentContext, h1, h2]

/-- C7 witnessed on the empty memory at iteration 0: the context is the
empty string and the rendered entry set is empty of iterations ≥ 0. -/
theorem getRecentContext_spec_witness :
    AgentMemory.empty.getRecentContext 0 = [] ∧
    (∀ e ∈ AgentMemory.recentContextEntries AgentMemory.empty 0, e.iteration < 0) :=
  ⟨(getRecentContext_spec AgentMemory.empty 0).2.2.2.2 rfl rfl,
   (getRecentContext_spec AgentMemory.empty 0).1⟩

theorem shouldContinueIterating_eq (a e : Str) :
    shouldContinueIterating a e =
      (!stopPatterns.any (fun p => hasSub (combinedLower a e) p) &&
        continuePatterns.any (fun p => hasSub (combinedLower a e) p)) := by
  unfold shouldContinueIterating
  dsimp only
  by_cases h : (stopPatterns.any fun p => hasSub (combinedLower a e) p) = true
  · rw [if_pos h, h]
    rfl
  · have h' : (stopPatterns.any fun p => hasSub (combinedLower a e) p) = false := by
      revert h
      cases stopPatterns.any fun p => hasSub (combinedLower a e) p <;> simp
    rw [if_neg h, h']
    simp

/-- C4: the stop-biased `shouldContinueIterating` (a pure function of its
two texts by construction) returns `false` whenever any stop pattern —
in particular "task completed" — occurs as a substring of the lowercased
concatenation of the two texts, regardless of any other content; when no
stop pattern occurs, it returns `true` iff at least one continue pattern
occurs, defaulting to stop otherwise. -/
theorem stop_biased_heuristic_spec (analystMsg executorMsg : Str) :
    ((∃ p ∈ stopPatterns, hasSub (combinedLower analystMsg executorMsg) p = true) →
      shouldContinueIterating analystMsg executorMsg = false) ∧
    ((∀ p ∈ stopPatterns, hasSub (combinedLower analystMsg executorMsg) p = false) →
      (shouldContinueIterating analystMsg executorMsg = true ↔
        ∃ p ∈ continuePatterns, hasSub (combinedLower analystMsg executorMsg) p = true)) ∧
    (hasSub (combinedLower analystMsg executorMsg) "task completed".toList = true →
      shouldContinueIterating analystMsg executorMsg = false) := by
  have hstop : ∀ p ∈ stopPatterns,
      hasSub (combinedLower analystMsg executorMsg) p = true →
      shouldContinueIterating analystMsg executorMsg = false := by
    intro p hp hsub
    rw [shouldContinueIterating_eq,
      List.any_eq_true.mpr ⟨p, hp, hsub⟩]
    rfl
  refine ⟨?_, ?_, ?_⟩
  · rintro ⟨p, hp, hsub⟩
    exact hstop p hp hsub
  · intro h
    have hany : (stopPatterns.any fun p => hasSub (combinedLower analystMsg executorMsg) p) = false := by
      cases hcase : stopPatterns.any fun p => hasSub (combinedLower analystMsg executorMsg) p
      · rfl
      · obtain ⟨p, hp, hsub⟩ := List.any_eq_true.mp hcase
        rw [h p hp] at hsub
        exact absurd hsub (by simp)
    rw [shouldContinueIterating_eq, hany]
    simp [List.any_eq_true]
  · intro hsub
    exact hstop "task completed".toList (by decide) hsub

/-- C4 witnessed: a pair whose combined text contains "task completed"
stops, and a pattern-free pair continues exactly when a continue pattern
occurs. -/
theorem stop_biased_heuristic_spec_witness :
    shouldContinueIterating "Task completed successfully".toList
      "we should proceed".toList = false ∧
    (shouldContinueIterating "no signal here".toList "we should proceed".toList = true ↔
      ∃ p ∈ continuePatterns,
        hasSub (combinedLower "no signal here".toList "we should proceed".toList) p = true) :=
  ⟨(stop_biased_heuristic_spec "Task completed successfully".toList
      "we should proceed".toList).1 (by decide),
   (stop_biased_heuristic_spec "no signal here".toList
      "we should proceed".toList).2.1 (by decide)⟩

/-- C6: thinking of the executor role, `shouldHaveUsedTools` returns
`true` iff the lowercased text contains at least one action verb from
the fixed list AND contains "tool", "file" or "command", AND contains
neither "tool call" nor "executed"; in particular it returns `true` for
"I will create the file now" and `false` for "I executed
create_file_or_folder and it succeeded". -/
theorem tool_enforcement_classifier_spec (agentResponse : Str) :
    (CLI.shouldHaveUsedTools agentResponse .executor = true ↔
      executorForcingSpec agentResponse) ∧
    CLI.shouldHaveUsedTools "I will create the file now".toList .executor = true ∧
    CLI.shouldHaveUsedTools
      "I executed create_file_or_folder and it succeeded".toList .executor = false := by
  refine ⟨?_, by decide, by decide⟩
  unfold CLI.shouldHaveUsedTools executorForcingSpec
  dsimp only
  simp only [Bool.and_eq_true, Bool.or_eq_true, Bool.not_eq_true',
    List.any_eq_true, and_assoc, or_assoc]

/-- C6 witnessed: the classifier's verdict on "I will create the file
now" matches the spec-side condition. -/
theorem tool_enforcement_classifier_spec_witness :
    executorForcingSpec "I will create the file now".toList :=
  (tool_enforcement_classifier_spec "I will create the file now".toList).1.mp
    (by decide)

/-- C8: the catch block of `SimpleGeminiAgent.run` returns (never
re-throws): an error message containing '429' or 'quota' yields the
sentinel result whose response carries the quota-indicating text
"Quota limit" and whose `toolsUsed` is empty (after a fixed 10 s
backoff, a real-time effect outside the embedding); any other message
yields the result `Error: <message>` with empty `toolsUsed`. -/
theorem run_error_handling_spec (errorMessage : Str) :
    ((hasSub errorMessage "429".toList || hasSub errorMessage "quota".toList) = true →
      runCatch errorMessage =
        ⟨"Quota limit reached, waiting before retry.".toList, []⟩ ∧
      hasSub (runCatch errorMessage).response "Quota limit".toList = true ∧
      (runCatch errorMessage).toolsUsed = []) ∧
    ((hasSub errorMessage "429".toList || hasSub errorMessage "quota".toList) = false →
      runCatch errorMessage = ⟨"Error: ".toList ++ errorMessage, []⟩ ∧
      (runCatch errorMessage).toolsUsed = []) := by
  constructor
  · intro h
    have heq : runCatch errorMessage =
        ⟨"Quota limit reached, waiting before retry.".toList, []⟩ := by
      unfold runCatch
      rw [if_pos h]
    refine ⟨heq, ?_, by rw [heq]⟩
    rw [heq]
    decide
  · intro h
    have h' : ¬((hasSub errorMessage "429".toList ||
        hasSub errorMessage "quota".toList) = true) := by
      rw [h]
      simp
    have heq : runCatch errorMessage = ⟨"Error: ".toList ++ errorMessage, []⟩ := by
      unfold runCatch
      rw [if_neg h']
    exact ⟨heq, by rw [heq]⟩

/-- C8 witnessed: a quota message yields the sentinel, any other message
yields the error-carrying result, both with empty `toolsUsed`. -/
theorem run_error_handling_spec_witness :
    runCatch "quota exceeded".toList =
      ⟨"Quota limit reached, waiting before retry.".toList, []⟩ ∧
    runCatch "boom".toList = ⟨"Error: ".toList ++ "boom".toList, []⟩ :=
  ⟨((run_error_handling_spec "quota exceeded".toList).1 (by decide)).1,
   ((run_error_handling_spec "boom".toList).2 (by decide)).1⟩

/-- C9: for every registry, tool name and argument object, `executeTool`
returns a string in all cases — an unknown name yields the
`"Tool ... not found!"` string, a throwing tool yields the descriptive
`"Error executing ...: ..."` string, a succeeding tool its result —
so tool failures never raise past the dispatch boundary. -/
theorem tool_dispatch_total_spec (tools : List GTool) (toolName args : Str) :
    (tools.find? (fun t => t.name == toolName) = none →
      executeTool tools toolName args =
        "Tool ".toList ++ toolName ++ " not found!".toList) ∧
    (∀ tool, tools.find? (fun t => t.name == toolName) = some tool →
      (∀ msg, tool.func args = .error msg →
        executeTool tools toolName args =
          "Error executing ".toList ++ toolName ++ ": ".toList ++ msg) ∧
      (∀ r, tool.func args = .ok r → executeTool tools toolName args = r)) := by
  constructor
  · intro h
    unfold executeTool
    rw [h]
  · intro tool h
    constructor
    · intro msg hm
      unfold executeTool
      rw [h]
      dsimp only
      rw [hm]
    · intro r hr
      unfold executeTool
      rw [h]
      dsimp only
      rw [hr]

/-- C9 witnessed: an unknown name against the concrete registry model
yields the not-found string, and a registry whose tool throws yields the
descriptive error string. -/
theorem tool_dispatch_total_spec_witness :
    executeTool vscodeToolsModel "unknown_tool".toList "x".toList =
      "Tool ".toList ++ "unknown_tool".toList ++ " not found!".toList ∧
    executeTool failingToolModel "boom_tool".toList "x".toList =
      "Error executing ".toList ++ "boom_tool".toList ++ ": ".toList ++
        "no such path".toList :=
  ⟨(tool_dispatch_total_spec vscodeToolsModel "unknown_tool".toList "x".toList).1 rfl,
   ((tool_dispatch_total_spec failingToolModel "boom_tool".toList "x".toList).2
      ⟨"boom_tool".toList, fun _ => .error "no such path".toList⟩ rfl).1
      "no such path".toList rfl⟩

/-- C1 counterexample: when the model, during an analyst run, requests
the tool `create_file_or_folder` — a registry tool outside the analyst's
granted subset — the dispatcher resolves it in the full registry (the
result is not the not-found string) and the analyst's `toolsUsed` lists
it, refuting both "looked up only in that agent's permitted tool subset"
and "toolsUsed contains only tool names present in the subset granted to
that agent": `executeTool` searches the module-level `vscodeTools`
array, not the caller's subset. -/
theorem executeTool_full_registry_counterexample :
    (runToolPhase vscodeToolsModel "Analyst".toList 1 AgentMemory.empty
      [("create_file_or_folder".toList, "x".toList)]).2 =
      ["create_file_or_folder".toList] ∧
    "create_file_or_folder".toList ∉ analystToolNames ∧
    executeTool vscodeToolsModel "create_file_or_folder".toList "x".toList ≠
      "Tool ".toList ++ "create_file_or_folder".toList ++ " not found!".toList := by
  exact ⟨rfl, by decide, by decide⟩

theorem runToolPhase_go (reg : List GTool) (nm : Str) (it : Nat) :
    ∀ (calls : List (Str × Str)) (m : AgentMemory) (acc : List Str),
      (calls.foldl (fun acc2 call =>
        (acc2.1.addEntry it nm (call.1 ++ "(".toList ++ call.2 ++ ")".toList)
          (executeTool reg call.1 call.2), acc2.2 ++ [call.1])) (m, acc)).2 =
      acc ++ calls.map Prod.fst := by
  intro calls
  induction calls with
  | nil => intro m acc; simp
  | cons c cs ih =>
    intro m acc
    rw [List.foldl_cons, ih]
    simp

theorem runToolPhase_toolsUsed (reg : List GTool) (nm : Str) (it : Nat)
    (m : AgentMemory) (calls : List (Str × Str)) :
    (runToolPhase reg nm it m calls).2 = calls.map Prod.fst := by
  have h := runToolPhase_go reg nm it calls m []
  simp only [List.nil_append] at h
  exact h

/-- C1 amended: `executeTool` dispatches against the full registry for
every agent — any name present in the full registry resolves (never the
not-found string), whatever the caller's granted subset — and the
`toolsUsed` of a run is exactly the list of names the model requested,
whether or not they lie in the agent's subset; the subset only
determines which function declarations are shown to the model. -/
theorem executeTool_full_registry_dispatch (agentName : Str) (iteration : Nat)
    (m : AgentMemory) (calls : List (Str × Str)) :
    (runToolPhase vscodeToolsModel agentName iteration m calls).2 =
      calls.map Prod.fst ∧
    (∀ toolName args, toolName ∈ vscodeToolNames →
      executeTool vscodeToolsModel toolName args ≠
        "Tool ".toList ++ toolName ++ " not found!".toList) := by
  refine ⟨runToolPhase_toolsUsed _ _ _ _ _, ?_⟩
  have hok : ∀ toolName args, toolName ∈ vscodeToolNames →
      executeTool vscodeToolsModel toolName args = "ok".toList := by
    intro toolName args h
    fin_cases h <;> rfl
  intro toolName args h hc
  rw [hok toolName args h] at hc
  simp [List.append_ne_nil_of_left_ne_nil] at hc

/-- C1 amended, witnessed: a model request for `edit_file` during an
analyst run (a tool outside the analyst subset) yields exactly that
`toolsUsed` list, and `edit_file` resolves in the full registry. -/
theorem executeTool_full_registry_dispatch_witness :
    (runToolPhase vscodeToolsModel "Analyst".toList 2 AgentMemory.empty
      [("edit_file".toList, "y".toList)]).2 = ["edit_file".toList] ∧
    executeTool vscodeToolsModel "edit_file".toList "y".toList ≠
      "Tool ".toList ++ "edit_file".toList ++ " not found!".toList :=
  ⟨(executeTool_full_registry_dispatch "Analyst".toList 2 AgentMemory.empty
      [("edit_file".toList, "y".toList)]).1,
   (executeTool_full_registry_dispatch "Analyst".toList 2 AgentMemory.empty []).2
      "edit_file".toList "y".toList (by decide)⟩

theorem applyEntryCalls_append (m : AgentMemory) (cs1 cs2 : List (Nat × Str × Str × Str)) :
    applyEntryCalls m (cs1 ++ cs2) = applyEntryCalls (applyEntryCalls m cs1) cs2 := by
  simp [applyEntryCalls, List.foldl_append]

theorem runToolPhase_memory_go (reg : List GTool) (nm : Str) (it : Nat) :
    ∀ (calls : List (Str × Str)) (m : AgentMemory) (acc : List Str),
      (calls.foldl (fun acc2 call =>
        (acc2.1.addEntry it nm (call.1 ++ "(".toList ++ call.2 ++ ")".toList)
          (executeTool reg call.1 call.2), acc2.2 ++ [call.1])) (m, acc)).1 =
      applyEntryCalls m (calls.map (fun c =>
        (it, nm, c.1 ++ "(".toList ++ c.2 ++ ")".toList, executeTool reg c.1 c.2))) := by
  intro calls
  induction calls with
  | nil => intro m acc; rfl
  | cons c cs ih =>
    intro m acc
    rw [List.foldl_cons, ih]
    rfl

theorem runToolPhase_memory (reg : List GTool) (nm : Str) (it : Nat)
    (m : AgentMemory) (calls : List (Str × Str)) :
    (runToolPhase reg nm it m calls).1 =
      applyEntryCalls m (calls.map (fun c =>
        (it, nm, c.1 ++ "(".toList ++ c.2 ++ ")".toList, executeTool reg c.1 c.2))) :=
  runToolPhase_memory_go reg nm it calls m []

theorem runAgentTurn_memory (reg : List GTool) (nm : Str) (it : Nat)
    (m : AgentMemory) (o : ModelOutput) :
    ∃ cs, (runAgentTurn reg nm it m o).1 = applyEntryCalls m cs := by
  cases o with
  | functionCalls calls f => exact ⟨_, runToolPhase_memory reg nm it m calls⟩
  | text t =>
    exact ⟨[(it, nm, "thinking".toList,
      if isBlank t then "Task acknowledged.".toList else t)], rfl⟩
  | failure msg => exact ⟨[], rfl⟩

theorem runAgentTurn_response (reg : List GTool) (nm : Str) (it : Nat)
    (m : AgentMemory) (o : ModelOutput) :
    (runAgentTurn reg nm it m o).2.response = outputResponse o := by
  cases o <;> rfl

theorem stepState_count (reg : List GTool) (orc : Nat → AgentTag → ModelOutput)
    (s : GeminiState) :
    (stepState reg orc s).context.count = s.context.count + 1 := rfl

theorem stepState_originalRequest (reg : List GTool) (orc : Nat → AgentTag → ModelOutput)
    (s : GeminiState) :
    (stepState reg orc s).context.originalRequest = s.context.originalRequest := rfl

theorem stepState_memory (reg : List GTool) (orc : Nat → AgentTag → ModelOutput)
    (s : GeminiState) :
    ∃ cs, (stepState reg orc s).memory = applyEntryCalls s.memory cs := by
  obtain ⟨cs1, h1⟩ := runAgentTurn_memory reg "Analyst".toList (s.context.count + 1)
    s.memory (orc (s.context.count + 1) .analyst)
  obtain ⟨cs2, h2⟩ := runAgentTurn_memory reg "Executor".toList (s.context.count + 1)
    (runAgentTurn reg "Analyst".toList (s.context.count + 1)
      s.memory (orc (s.context.count + 1) .analyst)).1
    (orc (s.context.count + 1) .executor)
  refine ⟨cs1 ++ cs2, ?_⟩
  show (runAgentTurn reg "Executor".toList (s.context.count + 1)
      (runAgentTurn reg "Analyst".toList (s.context.count + 1)
        s.memory (orc (s.context.count + 1) .analyst)).1
      (orc (s.context.count + 1) .executor)).1 = _
  rw [h2, h1, applyEntryCalls_append]

theorem stepContinue_eq (reg : List GTool) (orc : Nat → AgentTag → ModelOutput)
    (s : GeminiState) :
    stepContinue reg orc s = shouldContinueIterating
      (outputResponse (orc (s.context.count + 1) .analyst))
      (outputResponse (orc (s.context.count + 1) .executor)) := by
  unfold stepContinue
  dsimp only
  rw [runAgentTurn_response, runAgentTurn_response]

theorem geminiIterLoop_fixed (reg : List GTool) (orc : Nat → AgentTag → ModelOutput)
    (s : GeminiState) (h : ¬ s.context.count < geminiMaxIterations) :
    geminiIterLoop reg orc s = s := by
  unfold geminiIterLoop
  rw [dif_neg h]

theorem geminiIterLoop_go (reg : List GTool) (orc : Nat → AgentTag → ModelOutput) :
    ∀ (fuel : Nat) (s : GeminiState), geminiMaxIterations - s.context.count ≤ fuel →
      s.context.count ≤ (geminiIterLoop reg orc s).context.count ∧
      (geminiIterLoop reg orc s).context.count ≤ max s.context.count geminiMaxIterations ∧
      (geminiIterLoop reg orc s).context.originalRequest = s.context.originalRequest ∧
      ∃ cs, (geminiIterLoop reg orc s).memory = applyEntryCalls s.memory cs := by
  intro fuel
  induction fuel with
  | zero =>
    intro s h
    have hge : ¬ s.context.count < geminiMaxIterations := by omega
    rw [geminiIterLoop_fixed reg orc s hge]
    exact ⟨Nat.le_refl _, Nat.le_max_left _ _, rfl, ⟨[], rfl⟩⟩
  | succ k ih =>
    intro s h
    by_cases hlt : s.context.count < geminiMaxIterations
    · unfold geminiIterLoop
      rw [dif_pos hlt]
      have hfuel : geminiMaxIterations - (stepState reg orc s).context.count ≤ k := by
        rw [stepState_count]
        omega
      obtain ⟨cs0, hm0⟩ := stepState_memory reg orc s
      by_cases hcont : stepContinue reg orc s = true
      · rw [if_pos hcont]
        obtain ⟨ih1, ih2, ih3, cs, ihm⟩ := ih (stepState reg orc s) hfuel
        refine ⟨?_, ?_, ?_, ?_⟩
        · rw [stepState_count] at ih1
          omega
        · rw [stepState_count] at ih2
          omega
        · rw [ih3, stepState_originalRequest]
        · exact ⟨cs0 ++ cs, by rw [ihm, hm0, applyEntryCalls_append]⟩
      · rw [if_neg hcont]
        refine ⟨?_, ?_, stepState_originalRequest reg orc s, ⟨cs0, hm0⟩⟩
        · rw [stepState_count]
          omega
        · rw [stepState_count]
          omega
    · rw [geminiIterLoop_fixed reg orc s hlt]
      exact ⟨Nat.le_refl _, Nat.le_max_left _ _, rfl, ⟨[], rfl⟩⟩

theorem geminiIterLoop_always_continue (reg : List GTool)
    (orc : Nat → AgentTag → ModelOutput)
    (hcont : ∀ n, shouldContinueIterating
      (outputResponse (orc n .analyst)) (outputResponse (orc n .executor)) = true) :
    ∀ (fuel : Nat) (s : GeminiState), geminiMaxIterations - s.context.count ≤ fuel →
      s.context.count ≤ geminiMaxIterations →
      (geminiIterLoop reg orc s).context.count = geminiMaxIterations := by
  intro fuel
  induction fuel with
  | zero =>
    intro s h hle
    have hge : ¬ s.context.count < geminiMaxIterations := by omega
    rw [geminiIterLoop_fixed reg orc s hge]
    omega
  | succ k ih =>
    intro s h hle
    by_cases hlt : s.context.count < geminiMaxIterations
    · unfold geminiIterLoop
      rw [dif_pos hlt, if_pos (by rw [stepContinue_eq]; exact hcont _)]
      refine ih (stepState reg orc s) ?_ ?_ <;> rw [stepState_count] <;> omega
    · rw [geminiIterLoop_fixed reg orc s hlt]
      omega

theorem cli_innerLoop_fixed (orc : Nat → Str × Str) (count : Nat)
    (h : ¬ count < CLI.maxIterations) : CLI.innerLoop orc count = count := by
  unfold CLI.innerLoop
  rw [dif_neg h]

theorem cli_innerLoop_go (orc : Nat → Str × Str) :
    ∀ (fuel count : Nat), CLI.maxIterations - count ≤ fuel →
      count ≤ CLI.innerLoop orc count ∧
      CLI.innerLoop orc count ≤ max count CLI.maxIterations := by
  intro fuel
  induction fuel with
  | zero =>
    intro count h
    have hge : ¬ count < CLI.maxIterations := by omega
    rw [cli_innerLoop_fixed orc count hge]
    exact ⟨Nat.le_refl _, Nat.le_max_left _ _⟩
  | succ k ih =>
    intro count h
    by_cases hlt : count < CLI.maxIterations
    · unfold CLI.innerLoop
      rw [dif_pos hlt]
      by_cases hask : CLI.shouldAskUser (orc (count + 1)).1 = true
      · rw [if_pos hask]
        omega
      · rw [if_neg hask]
        by_cases hcont : CLI.shouldContinueIterating (orc (count + 1)).1 (orc (count + 1)).2 = true
        · rw [if_pos hcont]
          obtain ⟨ih1, ih2⟩ := ih (count + 1) (by omega)
          omega
        · rw [if_neg hcont]
          omega
    · rw [cli_innerLoop_fixed orc count hlt]
      exact ⟨Nat.le_refl _, Nat.le_max_left _ _⟩

theorem cli_innerLoop_always_continue (orc : Nat → Str × Str)
    (hask : ∀ n, CLI.shouldAskUser (orc n).1 = false)
    (hcont : ∀ n, CLI.shouldContinueIterating (orc n).1 (orc n).2 = true) :
    ∀ (fuel count : Nat), CLI.maxIterations - count ≤ fuel →
      count ≤ CLI.maxIterations → CLI.innerLoop orc count = CLI.maxIterations := by
  intro fuel
  induction fuel with
  | zero =>
    intro count h hle
    have hge : ¬ count < CLI.maxIterations := by omega
    rw [cli_innerLoop_fixed orc count hge]
    omega
  | succ k ih =>
    intro count h hle
    by_cases hlt : count < CLI.maxIterations
    · unfold CLI.innerLoop
      rw [dif_pos hlt, if_neg (by rw [hask (count + 1)]; simp),
        if_pos (hcont (count + 1))]
      exact ih (count + 1) (by omega) (by omega)
    · rw [cli_innerLoop_fixed orc count hlt]
      omega

/-- C5: in both drivers, an inner-loop execution never raises the
iteration counter past the configured cap (6 for the Gemini driver, 10
for the LangChain CLI driver) — so a single task runs at most that many
(analyst, executor) pairs — and when the continuation heuristic answers
"continue" on every iteration (and, in the CLI driver, the analyst never
triggers the ask-user exit), the loop ends exactly at the cap with the
reached-maximum-iterations status raised. -/
theorem iteration_cap_bound (reg : List GTool) (orc : Nat → AgentTag → ModelOutput)
    (orcCLI : Nat → Str × Str) (s : GeminiState) (count : Nat) :
    ((geminiIterLoop reg orc s).context.count ≤ max s.context.count geminiMaxIterations) ∧
    ((∀ n, shouldContinueIterating (outputResponse (orc n .analyst))
        (outputResponse (orc n .executor)) = true) →
      s.context.count ≤ geminiMaxIterations →
      (geminiIterLoop reg orc s).context.count = geminiMaxIterations ∧
      geminiReachedMax (geminiIterLoop reg orc s) = true) ∧
    (CLI.innerLoop orcCLI count ≤ max count CLI.maxIterations) ∧
    ((∀ n, CLI.shouldAskUser (orcCLI n).1 = false) →
      (∀ n, CLI.shouldContinueIterating (orcCLI n).1 (orcCLI n).2 = true) →
      count ≤ CLI.maxIterations →
      CLI.innerLoop orcCLI count = CLI.maxIterations ∧
      CLI.reachedMax (CLI.innerLoop orcCLI count) = true) := by
  refine ⟨?_, ?_, ?_, ?_⟩
  · exact (geminiIterLoop_go reg orc _ s (Nat.le_refl _)).2.1
  · intro hcont hle
    have h := geminiIterLoop_always_continue reg orc hcont _ s (Nat.le_refl _) hle
    refine ⟨h, ?_⟩
    unfold geminiReachedMax
    rw [h]
    simp
  · exact (cli_innerLoop_go orcCLI _ count (Nat.le_refl _)).2
  · intro hask hcont hle
    have h := cli_innerLoop_always_continue orcCLI hask hcont _ count (Nat.le_refl _) hle
    refine ⟨h, ?_⟩
    unfold CLI.reachedMax
    rw [h]
    simp

/-- C5 witnessed: with model outputs that always ask to continue, a
fresh task runs the Gemini driver to exactly 6 iterations and the CLI
driver to exactly 10. -/
theorem iteration_cap_bound_witness :
    (geminiIterLoop vscodeToolsModel (fun _ _ => ModelOutput.text "continue".toList)
      ⟨⟨0, [], []⟩, AgentMemory.empty⟩).context.count = geminiMaxIterations ∧
    CLI.innerLoop (fun _ => ("go".toList, "go".toList)) 0 = CLI.maxIterations :=
  ⟨((iteration_cap_bound vscodeToolsModel (fun _ _ => ModelOutput.text "continue".toList)
      (fun _ => ("go".toList, "go".toList)) ⟨⟨0, [], []⟩, AgentMemory.empty⟩ 0).2.1
      (fun n => by decide) (by decide)).1,
   ((iteration_cap_bound vscodeToolsModel (fun _ _ => ModelOutput.text "continue".toList)
      (fun _ => ("go".toList, "go".toList)) ⟨⟨0, [], []⟩, AgentMemory.empty⟩ 0).2.2.2
      (fun n => by decide) (fun n => by decide) (by decide)).1⟩

/-- C10: across the user inputs of one Gemini CLI session, the iteration
counter is never reset (it can only grow), and the memory clear, the
`originalRequest` assignment and the initial observation pass are gated
on `count === 0`: once a first task has consumed k ≥ 1 iterations, any
later user input leaves `originalRequest` as the first task's, changes
the memory only by `addEntry` calls (never clearing it), raises the
count to at most the cap of 6 (hence at most 6 - k further iterations),
and once the cap was reached does nothing at all. -/
theorem count_never_reset_across_inputs (reg : List GTool)
    (orc : Nat → AgentTag → ModelOutput) (obs : ModelOutput)
    (s : GeminiState) (userInput : Str) :
    (s.context.count ≤ (geminiProcessInput reg orc obs s userInput).context.count) ∧
    (1 ≤ s.context.count →
      (geminiProcessInput reg orc obs s userInput).context.originalRequest =
        s.context.originalRequest ∧
      (∃ cs, (geminiProcessInput reg orc obs s userInput).memory =
        applyEntryCalls s.memory cs) ∧
      (geminiProcessInput reg orc obs s userInput).context.count ≤
        max s.context.count geminiMaxIterations ∧
      (geminiMaxIterations ≤ s.context.count →
        geminiProcessInput reg orc obs s userInput = s)) := by
  by_cases h0 : s.context.count = 0
  · constructor
    · rw [h0]
      exact Nat.zero_le _
    · intro h1
      omega
  · have hinit : geminiProcessInput reg orc obs s userInput = geminiIterLoop reg orc s := by
      unfold geminiProcessInput
      rw [if_neg h0]
    obtain ⟨g1, g2, g3, g4⟩ := geminiIterLoop_go reg orc _ s (Nat.le_refl _)
    rw [hinit]
    refine ⟨g1, fun _ => ⟨g3, g4, g2, fun hge => ?_⟩⟩
    exact geminiIterLoop_fixed reg orc s (by omega)

/-- C10 witnessed: a session whose first task already reached the cap of
6 processes a second user input as a no-op — same count, same original
request, same memory. -/
theorem count_never_reset_across_inputs_witness :
    geminiProcessInput vscodeToolsModel (fun _ _ => ModelOutput.text "go".toList)
      (ModelOutput.text "obs".toList)
      ⟨⟨6, "first task".toList, []⟩, AgentMemory.empty⟩ "second task".toList =
      ⟨⟨6, "first task".toList, []⟩, AgentMemory.empty⟩ :=
  ((count_never_reset_across_inputs vscodeToolsModel
      (fun _ _ => ModelOutput.text "go".toList) (ModelOutput.text "obs".toList)
      ⟨⟨6, "first task".toList, []⟩, AgentMemory.empty⟩ "second task".toList).2
      (by decide)).2.2.2 (by decide)

end Traycer
